import Mathlib

/-!
Verification development for the board-publish pipeline (`sub2.py`).

The program is shallowly embedded:
* Python strings are `List Char`; `str.replace`, `str.split`, `str.strip`,
  `str.startswith` and `float`/decimal formatting are modelled by executable
  functions below (`pyReplace`, `pySplit`, `pyStrip`, `List.isPrefixOf`,
  `parseDecimal?`, `fmt10`).
* Python numbers are exact rationals (`ℚ`) and arbitrary-precision naturals.
* The network is abstracted as a per-endpoint `Outcome`; the global
  `current_gas_price_wei` is threaded as explicit state.
* The unbounded `main_loop` is modelled as a step function `cycleStep` over
  one cycle plus a fold `runLoop` over a list of cycle inputs.
-/

namespace OKPixels

/-! ## Python string primitives -/

/-- The whitespace characters stripped by Python's `str.strip()` (ASCII part). -/
def isPySpace (c : Char) : Bool :=
  c == ' ' || c == '\t' || c == '\n' || c == '\r' || c == '\x0b' || c == '\x0c'

/-- Drop leading Python whitespace. -/
def stripStart (l : List Char) : List Char := l.dropWhile isPySpace

/-- Drop trailing Python whitespace. -/
def stripEnd (l : List Char) : List Char := (l.reverse.dropWhile isPySpace).reverse

/-- Python `str.strip()`. -/
def pyStrip (l : List Char) : List Char := stripEnd (stripStart l)

/-- Fuel-driven scanner for Python `str.replace(old, new)`: replaces every
non-overlapping occurrence of `old`, scanning left to right. -/
def pyReplaceAux (old new : List Char) : Nat → List Char → List Char
  | 0, s => s
  | _ + 1, [] => []
  | fuel + 1, c :: rest =>
    if old.isPrefixOf (c :: rest) then
      new ++ pyReplaceAux old new fuel (List.drop (old.length - 1) rest)
    else
      c :: pyReplaceAux old new fuel rest

/-- Python `s.replace(old, new)` (for nonempty `old`, as used in the program). -/
def pyReplace (s old new : List Char) : List Char :=
  pyReplaceAux old new (s.length + 1) s

/-- Fuel-driven scanner for Python `str.split(sep)` with a nonempty separator. -/
def pySplitAux (sep : List Char) : Nat → List Char → List (List Char)
  | 0, s => [s]
  | _ + 1, [] => [[]]
  | fuel + 1, c :: rest =>
    if sep.isPrefixOf (c :: rest) then
      [] :: pySplitAux sep fuel (List.drop (sep.length - 1) rest)
    else
      match pySplitAux sep fuel rest with
      | seg :: segs => (c :: seg) :: segs
      | [] => [[c]]

/-- Python `s.split(sep)` (nonempty `sep`). -/
def pySplit (s sep : List Char) : List (List Char) :=
  pySplitAux sep (s.length + 1) s

/-- Does `pat` occur as a contiguous substring of `s`? -/
def occursIn (pat : List Char) : List Char → Bool
  | [] => pat.isPrefixOf []
  | c :: rest => pat.isPrefixOf (c :: rest) || occursIn pat rest

/-! ## Decimal rendering and parsing (Python `float(...)` / `f"{x:.10f}"`) -/

/-- The decimal digit characters. -/
def digitChar : Nat → Char
  | 0 => '0' | 1 => '1' | 2 => '2' | 3 => '3' | 4 => '4'
  | 5 => '5' | 6 => '6' | 7 => '7' | 8 => '8' | 9 => '9'
  | _ => '?'

/-- Numeric value of a digit character. -/
def digitVal (c : Char) : Nat := c.toNat - 48

/-- Is `c` one of `'0'`..`'9'`? -/
def isDigitChar (c : Char) : Bool := 48 ≤ c.toNat && c.toNat ≤ 57

/-- Fuel-driven decimal rendering of a natural number. -/
def natToDigitsAux : Nat → Nat → List Char
  | 0, _ => []
  | fuel + 1, n =>
    if n < 10 then [digitChar n]
    else natToDigitsAux fuel (n / 10) ++ [digitChar (n % 10)]

/-- Decimal rendering of a natural number (as Python `str` of an `int`). -/
def natToDigits (n : Nat) : List Char := natToDigitsAux (n + 1) n

/-- Value of a digit string (no validity check). -/
def digitsCore (l : List Char) : Nat :=
  l.foldl (fun a c => a * 10 + digitVal c) 0

/-- Value of a nonempty all-digit string, `none` otherwise. -/
def digitsVal? (l : List Char) : Option Nat :=
  if !l.isEmpty && l.all isDigitChar then some (digitsCore l) else none

/-- Split a character list at every occurrence of a single character. -/
def splitOnChar (c : Char) : List Char → List (List Char)
  | [] => [[]]
  | a :: rest =>
    if a == c then [] :: splitOnChar c rest
    else
      match splitOnChar c rest with
      | seg :: segs => (a :: seg) :: segs
      | [] => [[a]]

/-- Unsigned part of Python `float(...)` for plain decimal literals:
digits, with at most one decimal point, not both sides empty. -/
def parseUnsignedDec (u : List Char) : Option ℚ :=
  match splitOnChar '.' u with
  | [a] => (digitsVal? a).map (fun n => (n : ℚ))
  | [a, b] =>
    if a.isEmpty && b.isEmpty then none
    else
      match (if a.isEmpty then some 0 else digitsVal? a),
            (if b.isEmpty then some 0 else digitsVal? b) with
      | some ia, some fb => some ((ia : ℚ) + (fb : ℚ) / 10 ^ b.length)
      | _, _ => none
  | _ => none

/-- Python `float(s)` restricted to plain decimal literals (the only shape the
program itself ever writes): strip whitespace, optional sign, decimal digits
with at most one point.  `none` models a raised `ValueError`. -/
def parseDecimal? (s : List Char) : Option ℚ :=
  match pyStrip s with
  | [] => none
  | c :: u =>
    if c == '-' then (parseUnsignedDec u).map (fun q => -q)
    else if c == '+' then parseUnsignedDec u
    else parseUnsignedDec (c :: u)

/-- The integer `⌊q·10¹⁰ + 1/2⌋` used when formatting with 10 decimal places. -/
def round10Int (q : ℚ) : ℤ := ⌊q * 10 ^ 10 + 1 / 2⌋

/-- The value obtained after rounding `q` to 10 decimal places. -/
def round10 (q : ℚ) : ℚ := (round10Int q : ℚ) / 10 ^ 10

/-- Left-pad with `'0'` to length `k`. -/
def padZeros (k : Nat) (l : List Char) : List Char :=
  List.replicate (k - l.length) '0' ++ l

/-- Python `f"{q:.10f}"`: fixed-point rendering with exactly 10 decimal places. -/
def fmt10 (q : ℚ) : List Char :=
  let m := round10Int q
  let n := m.natAbs
  (if m < 0 then ['-'] else []) ++
    natToDigits (n / 10 ^ 10) ++ '.' :: padZeros 10 (natToDigits (n % 10 ^ 10))

/-! ## Gas price controller and transaction submitter (`push_to_contract`) -/

/-- Source: `current_gas_price_wei = int(1.3e6)`. -/
def GAS_PRICE_BASE : Nat := 1300000

/-- Source: `GAS_PRICE_MAX = int(3e6)`. -/
def GAS_PRICE_MAX : Nat := 3000000

/-- The escalation increment `int(0.3e6)` added on a timeout. -/
def GAS_PRICE_STEP : Nat := 300000

/-- The timeout branch of `push_to_contract`:
`if current_gas_price_wei < GAS_PRICE_MAX: current_gas_price_wei += int(0.3e6)`. -/
def escalate (g : Nat) : Nat :=
  if g < GAS_PRICE_MAX then g + GAS_PRICE_STEP else g

/-- What one RPC endpoint does with the attempt:
`unreachable` = `not w3.is_connected()`; `accepted used` = receipt with
`status == 1` and `gasUsed = used`; `rejected` = receipt with `status != 1`;
`timeout` = an exception whose text contains "timeout"; `error` = any other
exception. -/
inductive Outcome where
  | unreachable
  | accepted (used : Nat)
  | rejected
  | timeout
  | error
deriving DecidableEq, Repr

/-- Is this outcome a confirmed acceptance? -/
def Outcome.isAccepted : Outcome → Bool
  | .accepted _ => true
  | _ => false

/-- Result of `push_to_contract`: the returned boolean, the value of the
global `current_gas_price_wei` afterwards, and the fees (in ETH) reported to
`update_fee_file`, in order. -/
structure PushOut where
  success : Bool
  gas : Nat
  fees : List ℚ
deriving DecidableEq, Repr

/-- Model of `push_to_contract(html)` with the endpoint behaviours supplied as data.
The iteration over `RPC_URLS` is the iteration over the `Outcome` list. -/
def push_to_contract (gas : Nat) : List Outcome → PushOut
  | [] => ⟨false, gas, []⟩
  | .unreachable :: rest => push_to_contract gas rest
  | .accepted used :: _ =>
    ⟨true, GAS_PRICE_BASE, [(used : ℚ) * (gas : ℚ) / 10 ^ 18]⟩
  | .rejected :: rest => push_to_contract gas rest
  | .timeout :: rest => push_to_contract (escalate gas) rest
  | .error :: rest => push_to_contract gas rest

/-! ## Fee ledger (`update_fee_file`) -/

/-- The prefix tested by `lines[0].startswith("TOTAL:")` and used as the
separator in `lines[0].strip().split("TOTAL:")`. -/
def TOTAL_SEP : List Char := "TOTAL:".data

/-- The header written as `f"TOTAL: {new_total:.10f}"` starts with this. -/
def TOTAL_HEADER : List Char := "TOTAL: ".data

/-- Model of `float(lines[0].strip().split("TOTAL:")[1])`, with the enclosing
`try/except` that resets the total to `0.0` on `IndexError`/`ValueError`
(index 1 missing, or the text not parsing as a float). -/
def headerTotal (l0 : List Char) : ℚ :=
  (((pySplit (pyStrip l0) TOTAL_SEP).get? 1).bind parseDecimal?).getD 0

/-- The read phase of `update_fee_file`: current total and retained fee-entry
lines.  A missing file opens as empty, hence the empty list means both
"missing" and "empty". -/
def readFeeFile (lines : List (List Char)) : ℚ × List (List Char) :=
  match lines with
  | [] => (0, [])
  | l0 :: rest =>
    if TOTAL_SEP.isPrefixOf l0 then (headerTotal l0, rest) else (0, [])

/-- Model of `update_fee_file(new_fee)`: read total and entries, add the fee, rewrite
the header, the prior entries verbatim, then the new fee, newest last.
Lines are modelled without their trailing newline. -/
def update_fee_file (lines : List (List Char)) (new_fee : ℚ) : List (List Char) :=
  let t := readFeeFile lines
  let new_total := t.1 + new_fee
  (TOTAL_HEADER ++ fmt10 new_total) :: (t.2 ++ [fmt10 new_fee])

/-! ## HTML rendering (`generate_html`) -/

/-- Placeholder replaced by the JSON array of board lines. -/
def BOARD_DATA_MARK : List Char := "<!--BOARD_DATA-->".data

/-- Placeholder replaced by `str(board_id)`. -/
def BOARD_ID_MARK : List Char := "<!--BOARD_ID-->".data

/-- Placeholder replaced by the timestamp token. -/
def LAST_UPDATE_MARK : List Char := "<!--LAST_UPDATE_TIME-->".data

/-- Model of `generate_html(board_data_js, board_id, timestamp)` applied to a template
text (the content of `template.html`): three successive `str.replace` calls. -/
def generate_html (template board_data_js : List Char) (board_id : Nat)
    (timestamp : List Char) : List Char :=
  pyReplace
    (pyReplace (pyReplace template BOARD_DATA_MARK board_data_js)
      BOARD_ID_MARK (natToDigits board_id))
    LAST_UPDATE_MARK timestamp

/-! ## Change detector / publish loop (`main_loop`) -/

/-- Source check `lines[-1].startswith("Timestamp:")` — note: no trailing space. -/
def TS_TAG : List Char := "Timestamp:".data

/-- The literal removed by `timestamp_line.replace("Timestamp: ", "")`. -/
def TS_MARKER : List Char := "Timestamp: ".data

/-- The validation and extraction of the current timestamp from the board
file: empty file or a last line not starting with `"Timestamp:"` is rejected;
otherwise every occurrence of `"Timestamp: "` is deleted from the last line
and the result stripped. -/
def extractClock (lines : List (List Char)) : Option (List Char) :=
  match lines.getLast? with
  | none => none
  | some ll =>
    if TS_TAG.isPrefixOf ll then some (pyStrip (pyReplace ll TS_MARKER []))
    else none

/-- External events of one cycle: the board file content (`none` models
`FileNotFoundError`), whether `template.html` could be read (the only way
`generate_html` returns `None`), and the endpoint outcomes for the push. -/
structure CycleIn where
  fileLines : Option (List (List Char))
  templateOk : Bool
  outcomes : List Outcome
deriving DecidableEq, Repr

/-- Observable result of one cycle of `main_loop`: the new `last_timestamp`,
the new `current_gas_price_wei`, whether `push_to_contract` was invoked, and
the clock successfully published this cycle (if any). -/
structure CycleOut where
  last : Option (List Char)
  gas : Nat
  invoked : Bool
  pushed : Option (List Char)
deriving DecidableEq, Repr

/-- One iteration of the `while True` body of `main_loop`. -/
def cycleStep (last : Option (List Char)) (gas : Nat) (inp : CycleIn) :
    CycleOut :=
  match inp.fileLines with
  | none => ⟨last, gas, false, none⟩
  | some lines =>
    match extractClock lines with
    | none => ⟨last, gas, false, none⟩
    | some current =>
      if last = some current then ⟨last, gas, false, none⟩
      else if inp.templateOk then
        if (push_to_contract gas inp.outcomes).success then
          ⟨some current, (push_to_contract gas inp.outcomes).gas, true, some current⟩
        else ⟨last, (push_to_contract gas inp.outcomes).gas, true, none⟩
      else ⟨last, gas, false, none⟩

/-- Run `main_loop` over a finite list of cycle inputs, collecting the clocks
of the successfully confirmed publishes in order. -/
def runLoop (last : Option (List Char)) (gas : Nat) :
    List CycleIn → (Option (List Char) × Nat) × List (List Char)
  | [] => ((last, gas), [])
  | inp :: rest =>
    ((runLoop (cycleStep last gas inp).last (cycleStep last gas inp).gas rest).1,
      (cycleStep last gas inp).pushed.toList
        ++ (runLoop (cycleStep last gas inp).last (cycleStep last gas inp).gas rest).2)

/-- The clock of the most recent event in `evs`, defaulting to `last`. -/
def mostRecent (last : Option (List Char)) (evs : List (List Char)) :
    Option (List Char) :=
  evs.foldl (fun _ c => some c) last

/-! ## Helper lemmas about the submitter -/

/-- If all outcomes before the first `accepted` are non-accepting, the
submitter returns at that endpoint with the fee computed from the gas price
accumulated over the preceding attempts. -/
lemma push_reaches_accepted (gas used : Nat) (pre post : List Outcome)
    (h : ∀ o ∈ pre, o.isAccepted = false) :
    push_to_contract gas (pre ++ Outcome.accepted used :: post)
      = ⟨true, GAS_PRICE_BASE,
          [(used : ℚ) * ((push_to_contract gas pre).gas : ℚ) / 10 ^ 18]⟩ := by
  induction pre generalizing gas with
  | nil => simp [push_to_contract]
  | cons o pre ih =>
    have h' : ∀ x ∈ pre, x.isAccepted = false :=
      fun x hx => h x (List.mem_cons_of_mem _ hx)
    cases o with
    | unreachable =>
      simp only [List.cons_append, push_to_contract]
      exact ih gas h'
    | accepted u =>
      have := h (Outcome.accepted u) (List.mem_cons_self _ _)
      simp [Outcome.isAccepted] at this
    | rejected =>
      simp only [List.cons_append, push_to_contract]
      exact ih gas h'
    | timeout =>
      simp only [List.cons_append, push_to_contract]
      exact ih (escalate gas) h'
    | error =>
      simp only [List.cons_append, push_to_contract]
      exact ih gas h'

/-- Final gas price after `n` straight timeouts, starting from any price of
the form reachable from the base. -/
lemma push_timeouts_gas (n k : Nat) :
    (push_to_contract (min (GAS_PRICE_BASE + GAS_PRICE_STEP * k) 3100000)
        (List.replicate n Outcome.timeout)).gas
      = min (GAS_PRICE_BASE + GAS_PRICE_STEP * (k + n)) 3100000 := by
  induction n generalizing k with
  | zero => simp [push_to_contract]
  | succ n ih =>
    rw [List.replicate_succ]
    simp only [push_to_contract]
    have he : escalate (min (GAS_PRICE_BASE + GAS_PRICE_STEP * k) 3100000)
        = min (GAS_PRICE_BASE + GAS_PRICE_STEP * (k + 1)) 3100000 := by
      simp only [escalate, GAS_PRICE_BASE, GAS_PRICE_STEP, GAS_PRICE_MAX]
      split <;> omega
    rw [he, ih (k + 1)]
    simp only [GAS_PRICE_BASE, GAS_PRICE_STEP]
    omega

/-! ## Helper lemmas about `pyReplace` -/

/-- A pattern that does not occur leaves the scanned string unchanged. -/
lemma pyReplaceAux_not_occurs (old new : List Char) :
    ∀ fuel s, s.length < fuel → occursIn old s = false →
      pyReplaceAux old new fuel s = s := by
  intro fuel
  induction fuel with
  | zero => intro s h _; exact absurd h (Nat.not_lt_zero _)
  | succ fuel ih =>
    intro s hlen hocc
    cases s with
    | nil => rfl
    | cons c rest =>
      rw [occursIn, Bool.or_eq_false_iff] at hocc
      simp only [pyReplaceAux, hocc.1, Bool.false_eq_true, if_false]
      have : rest.length < fuel := by
        simp only [List.length_cons] at hlen
        omega
      rw [ih rest this hocc.2]

/-- Python `replace` is the identity when the pattern is absent. -/
lemma pyReplace_not_occurs (s old new : List Char)
    (h : occursIn old s = false) : pyReplace s old new = s :=
  pyReplaceAux_not_occurs old new (s.length + 1) s (Nat.lt_succ_self _) h

/-! ## Helper lemmas about digits, decimal parsing and formatting -/

lemma isDigitChar_digitChar (d : Nat) (h : d < 10) :
    isDigitChar (digitChar d) = true := by
  interval_cases d <;> decide

lemma digitVal_digitChar (d : Nat) (h : d < 10) : digitVal (digitChar d) = d := by
  interval_cases d <;> decide

lemma not_space_of_digit (c : Char) (h : isDigitChar c = true) :
    isPySpace c = false := by
  simp only [isDigitChar, Bool.and_eq_true, decide_eq_true_eq] at h
  simp only [isPySpace, Bool.or_eq_false_iff, beq_eq_false_iff_ne]
  refine ⟨⟨⟨⟨⟨?_, ?_⟩, ?_⟩, ?_⟩, ?_⟩, ?_⟩ <;>
    · rintro rfl
      exact absurd h (by decide)

lemma ne_T_of_digit (c : Char) (h : isDigitChar c = true) : c ≠ 'T' := by
  rintro rfl
  revert h
  decide

lemma ne_dot_of_digit (c : Char) (h : isDigitChar c = true) : c ≠ '.' := by
  rintro rfl
  revert h
  decide

lemma natToDigitsAux_digits (fuel : Nat) :
    ∀ n c, c ∈ natToDigitsAux fuel n → isDigitChar c = true := by
  induction fuel with
  | zero => intro n c hc; simp [natToDigitsAux] at hc
  | succ fuel ih =>
    intro n c hc
    rw [natToDigitsAux] at hc
    by_cases h : n < 10
    · rw [if_pos h] at hc
      simp at hc
      subst hc
      exact isDigitChar_digitChar n h
    · rw [if_neg h] at hc
      rcases List.mem_append.1 hc with h1 | h1
      · exact ih _ _ h1
      · simp at h1
        subst h1
        exact isDigitChar_digitChar _ (Nat.mod_lt _ (by omega))

lemma natToDigits_digits (n : Nat) :
    ∀ c ∈ natToDigits n, isDigitChar c = true :=
  fun c hc => natToDigitsAux_digits (n + 1) n c hc

lemma natToDigitsAux_ne_nil (fuel n : Nat) :
    natToDigitsAux (fuel + 1) n ≠ [] := by
  rw [natToDigitsAux]
  split
  · simp
  · simp

lemma natToDigits_ne_nil (n : Nat) : natToDigits n ≠ [] :=
  natToDigitsAux_ne_nil n n

lemma digitsCore_append_single (l : List Char) (c : Char) :
    digitsCore (l ++ [c]) = digitsCore l * 10 + digitVal c := by
  simp [digitsCore, List.foldl_append]

lemma digitsCore_natToDigitsAux (fuel : Nat) :
    ∀ n, n < fuel → digitsCore (natToDigitsAux fuel n) = n := by
  induction fuel with
  | zero => intro n h; omega
  | succ fuel ih =>
    intro n h
    rw [natToDigitsAux]
    by_cases h10 : n < 10
    · rw [if_pos h10]
      simp [digitsCore, digitVal_digitChar n h10]
    · rw [if_neg h10, digitsCore_append_single]
      have hdiv : n / 10 < fuel := by
        have : n / 10 < n := Nat.div_lt_self (by omega) (by omega)
        omega
      rw [ih _ hdiv, digitVal_digitChar _ (Nat.mod_lt _ (by omega))]
      omega

lemma digitsCore_natToDigits (n : Nat) : digitsCore (natToDigits n) = n :=
  digitsCore_natToDigitsAux (n + 1) n (Nat.lt_succ_self n)

lemma digitsVal?_natToDigits (n : Nat) : digitsVal? (natToDigits n) = some n := by
  unfold digitsVal?
  rw [if_pos, digitsCore_natToDigits]
  rw [Bool.and_eq_true, Bool.not_eq_true', List.all_eq_true]
  constructor
  · rw [List.isEmpty_eq_false_iff_exists_mem]
    obtain ⟨c, t, h⟩ := List.exists_cons_of_ne_nil (natToDigits_ne_nil n)
    exact ⟨c, by rw [h]; simp⟩
  · exact fun c hc => natToDigits_digits n c hc

lemma natToDigitsAux_length (fuel : Nat) :
    ∀ n k, n < 10 ^ k → 0 < k → (natToDigitsAux fuel n).length ≤ k := by
  induction fuel with
  | zero => intro n k _ _; simp [natToDigitsAux]
  | succ fuel ih =>
    intro n k hn hk
    rw [natToDigitsAux]
    by_cases h10 : n < 10
    · rw [if_pos h10]; simpa using hk
    · rw [if_neg h10]
      have hk2 : 2 ≤ k := by
        by_contra hcon
        interval_cases k
        · simp at hn; omega
      have hdiv : n / 10 < 10 ^ (k - 1) := by
        rw [Nat.div_lt_iff_lt_mul (by omega)]
        calc n < 10 ^ k := hn
        _ = 10 ^ (k - 1) * 10 := by
            rw [← pow_succ]
            congr 1
            omega
      have := ih (n / 10) (k - 1) hdiv (by omega)
      simp only [List.length_append, List.length_cons, List.length_nil]
      omega

lemma natToDigits_length_le_ten (n : Nat) (h : n < 10 ^ 10) :
    (natToDigits n).length ≤ 10 :=
  natToDigitsAux_length (n + 1) n 10 h (by omega)

lemma digitsCore_replicate_zero (j : Nat) (l : List Char) :
    digitsCore (List.replicate j '0' ++ l) = digitsCore l := by
  induction j with
  | zero => simp
  | succ j ih =>
    rw [List.replicate_succ, List.cons_append]
    simpa [digitsCore] using ih

lemma padZeros_length (l : List Char) (h : l.length ≤ 10) :
    (padZeros 10 l).length = 10 := by
  simp [padZeros]
  omega

lemma digitsVal?_padZeros (l : List Char)
    (hd : ∀ c ∈ l, isDigitChar c = true) :
    digitsVal? (padZeros 10 l) = some (digitsCore l) := by
  unfold digitsVal? padZeros
  rw [if_pos, digitsCore_replicate_zero]
  rw [Bool.and_eq_true, Bool.not_eq_true', List.all_eq_true]
  constructor
  · rw [List.isEmpty_eq_false_iff_exists_mem]
    rcases l with _ | ⟨c, t⟩
    · exact ⟨'0', by simp [List.mem_replicate]⟩
    · exact ⟨c, by simp⟩
  · intro c hc
    rcases List.mem_append.1 hc with h1 | h1
    · rw [List.eq_of_mem_replicate h1]; decide
    · exact hd c h1

lemma splitOnChar_of_not_mem (c : Char) (l : List Char) (h : c ∉ l) :
    splitOnChar c l = [l] := by
  induction l with
  | nil => rfl
  | cons a rest ih =>
    have ha : (a == c) = false := by
      rw [beq_eq_false_iff_ne]
      intro hac
      exact h (by simp [hac])
    rw [splitOnChar, ha]
    simp only [Bool.false_eq_true, if_false]
    rw [ih (fun hm => h (List.mem_cons_of_mem _ hm))]

lemma splitOnChar_append_cons (c : Char) (a b : List Char) (h : c ∉ a) :
    splitOnChar c (a ++ c :: b) = a :: splitOnChar c b := by
  induction a with
  | nil =>
    rw [List.nil_append, splitOnChar]
    simp
  | cons x a ih =>
    have hx : (x == c) = false := by
      rw [beq_eq_false_iff_ne]
      intro hxc
      exact h (by simp [hxc])
    rw [List.cons_append, splitOnChar, hx]
    simp only [Bool.false_eq_true, if_false]
    rw [ih (fun hm => h (List.mem_cons_of_mem _ hm))]

/-! ## Helper lemmas about stripping -/

lemma stripStart_eq_self (l : List Char) (h : ∀ c ∈ l, isPySpace c = false) :
    stripStart l = l := by
  cases l with
  | nil => rfl
  | cons c t =>
    unfold stripStart
    rw [List.dropWhile_cons, h c (by simp)]
    simp

lemma stripEnd_append_of_last (a D : List Char) (hne : D ≠ [])
    (hD : ∀ c ∈ D, isPySpace c = false) : stripEnd (a ++ D) = a ++ D := by
  obtain ⟨c, t, hct⟩ := List.exists_cons_of_ne_nil (List.reverse_ne_nil_iff.2 hne)
  unfold stripEnd
  rw [List.reverse_append, hct, List.cons_append, List.dropWhile_cons]
  have hc : isPySpace c = false := by
    apply hD
    rw [← List.mem_reverse, hct]
    simp
  rw [hc]
  simp only [Bool.false_eq_true, if_false]
  rw [← List.cons_append, ← hct, ← List.reverse_append, List.reverse_reverse]

lemma pyStrip_eq_self (l : List Char) (h : ∀ c ∈ l, isPySpace c = false) :
    pyStrip l = l := by
  cases l with
  | nil => rfl
  | cons c t =>
    unfold pyStrip
    rw [stripStart_eq_self _ h]
    have := stripEnd_append_of_last [] (c :: t) (by simp) h
    simpa using this

lemma pyStrip_cons_space (l : List Char) :
    pyStrip (' ' :: l) = pyStrip l := by
  unfold pyStrip stripStart
  rw [List.dropWhile_cons]
  simp [isPySpace]

/-! ## Helper lemmas about substring occurrence and `pySplit` -/

lemma mem_of_isPrefixOf (p : List Char) :
    ∀ s, p.isPrefixOf s = true → ∀ c ∈ p, c ∈ s := by
  induction p with
  | nil => intro s _ c hc; simp at hc
  | cons a p ih =>
    intro s h c hc
    cases s with
    | nil => simp [List.isPrefixOf] at h
    | cons b s =>
      rw [List.isPrefixOf, Bool.and_eq_true, beq_iff_eq] at h
      rcases List.mem_cons.1 hc with h1 | h1
      · subst h1
        rw [h.1]
        exact List.mem_cons_self _ _
      · exact List.mem_cons_of_mem _ (ih s h.2 c h1)

lemma subset_of_occursIn (pat s : List Char) (h : occursIn pat s = true) :
    ∀ c ∈ pat, c ∈ s := by
  induction s with
  | nil =>
    rw [occursIn] at h
    have : pat = [] := by
      cases pat with
      | nil => rfl
      | cons x xs => simp [List.isPrefixOf] at h
    subst this
    simp
  | cons c rest ih =>
    rw [occursIn, Bool.or_eq_true] at h
    rcases h with h | h
    · exact mem_of_isPrefixOf pat _ h
    · exact fun x hx => List.mem_cons_of_mem _ (ih h x hx)

lemma occursIn_eq_false (pat s : List Char) (a : Char) (ha : a ∈ pat)
    (hs : a ∉ s) : occursIn pat s = false := by
  by_contra h
  rw [Bool.not_eq_false] at h
  exact hs (subset_of_occursIn pat s h a ha)

lemma pySplitAux_not_occurs (sep : List Char) :
    ∀ fuel s, s.length < fuel → occursIn sep s = false →
      pySplitAux sep fuel s = [s] := by
  intro fuel
  induction fuel with
  | zero => intro s h _; exact absurd h (Nat.not_lt_zero _)
  | succ fuel ih =>
    intro s hlen hocc
    cases s with
    | nil => rfl
    | cons c rest =>
      rw [occursIn, Bool.or_eq_false_iff] at hocc
      rw [pySplitAux, hocc.1]
      simp only [Bool.false_eq_true, if_false]
      have : rest.length < fuel := by
        simp only [List.length_cons] at hlen
        omega
      rw [ih rest this hocc.2]

/-- Splitting the freshly written header line at `"TOTAL:"` yields an empty
first segment and the formatted number (with its leading space). -/
lemma pySplit_total_header (D : List Char) (hT : 'T' ∉ D) :
    pySplit (TOTAL_HEADER ++ D) TOTAL_SEP = [[], ' ' :: D] := by
  have hlen : (TOTAL_HEADER ++ D).length + 1 = (D.length + 7) + 1 := by
    rw [List.length_append]
    have h7 : TOTAL_HEADER.length = 7 := rfl
    omega
  unfold pySplit
  rw [hlen]
  show pySplitAux TOTAL_SEP (D.length + 7 + 1)
      ('T' :: (("OTAL: ").data ++ D)) = [[], ' ' :: D]
  rw [pySplitAux]
  have hpre : TOTAL_SEP.isPrefixOf ('T' :: (("OTAL: ").data ++ D)) = true := rfl
  rw [hpre]
  simp only [if_true]
  have hdrop : List.drop (TOTAL_SEP.length - 1) (("OTAL: ").data ++ D)
      = ' ' :: D := rfl
  rw [hdrop]
  have hocc : occursIn TOTAL_SEP (' ' :: D) = false := by
    apply occursIn_eq_false _ _ 'T' (by decide)
    intro hmem
    rcases List.mem_cons.1 hmem with h | h
    · exact absurd h (by decide)
    · exact hT h
  rw [pySplitAux_not_occurs TOTAL_SEP (D.length + 7) (' ' :: D)
    (by simp only [List.length_cons]; omega) hocc]

/-! ## Round-trip of the 10-decimal-place format through `float(...)` -/

lemma digitsVal?_of_digits (l : List Char) (hne : l ≠ [])
    (hd : ∀ c ∈ l, isDigitChar c = true) :
    digitsVal? l = some (digitsCore l) := by
  unfold digitsVal?
  rw [if_pos]
  rw [Bool.and_eq_true, Bool.not_eq_true', List.all_eq_true]
  constructor
  · cases l with
    | nil => exact absurd rfl hne
    | cons c t => rfl
  · exact hd

lemma padZeros_digits (l : List Char) (hd : ∀ c ∈ l, isDigitChar c = true) :
    ∀ c ∈ padZeros 10 l, isDigitChar c = true := by
  intro c hc
  rcases List.mem_append.1 hc with h | h
  · rw [List.eq_of_mem_replicate h]; decide
  · exact hd c h

lemma round10Int_nonneg (q : ℚ) (h : 0 ≤ q) : 0 ≤ round10Int q := by
  unfold round10Int
  apply Int.le_floor.2
  push_cast
  have h1 : (0 : ℚ) ≤ q * 10 ^ 10 := mul_nonneg h (by positivity)
  linarith

lemma fmt10_shape (q : ℚ) (h : 0 ≤ q) :
    fmt10 q = natToDigits ((round10Int q).natAbs / 10 ^ 10)
      ++ '.' :: padZeros 10 (natToDigits ((round10Int q).natAbs % 10 ^ 10)) := by
  have hm : 0 ≤ round10Int q := round10Int_nonneg q h
  show (if round10Int q < 0 then ['-'] else [])
      ++ natToDigits ((round10Int q).natAbs / 10 ^ 10)
      ++ '.' :: padZeros 10 (natToDigits ((round10Int q).natAbs % 10 ^ 10)) = _
  rw [if_neg (by omega)]
  simp

lemma parseUnsignedDec_digits (A P : List Char) (hA : A ≠ [])
    (hAd : ∀ c ∈ A, isDigitChar c = true) (hP : P ≠ [])
    (hPd : ∀ c ∈ P, isDigitChar c = true) :
    parseUnsignedDec (A ++ '.' :: P)
      = some ((digitsCore A : ℚ) + (digitsCore P : ℚ) / 10 ^ P.length) := by
  unfold parseUnsignedDec
  have hdotA : '.' ∉ A := fun hm => ne_dot_of_digit _ (hAd _ hm) rfl
  have hdotP : '.' ∉ P := fun hm => ne_dot_of_digit _ (hPd _ hm) rfl
  rw [splitOnChar_append_cons _ _ _ hdotA, splitOnChar_of_not_mem _ _ hdotP]
  have hAe : A.isEmpty = false := by
    cases A with
    | nil => exact absurd rfl hA
    | cons c t => rfl
  have hPe : P.isEmpty = false := by
    cases P with
    | nil => exact absurd rfl hP
    | cons c t => rfl
  simp only [hAe, hPe, Bool.false_and, Bool.false_eq_true, if_false,
    digitsVal?_of_digits A hA hAd, digitsVal?_of_digits P hP hPd]

lemma parseDecimal?_space_digits (A P : List Char) (hA : A ≠ [])
    (hAd : ∀ c ∈ A, isDigitChar c = true) (hP : P ≠ [])
    (hPd : ∀ c ∈ P, isDigitChar c = true) :
    parseDecimal? (' ' :: (A ++ '.' :: P))
      = some ((digitsCore A : ℚ) + (digitsCore P : ℚ) / 10 ^ P.length) := by
  have hall : ∀ c ∈ A ++ '.' :: P, isPySpace c = false := by
    intro c hc
    rcases List.mem_append.1 hc with h | h
    · exact not_space_of_digit _ (hAd _ h)
    · rcases List.mem_cons.1 h with h | h
      · subst h; decide
      · exact not_space_of_digit _ (hPd _ h)
  unfold parseDecimal?
  rw [pyStrip_cons_space, pyStrip_eq_self _ hall]
  obtain ⟨c0, t, hA0⟩ := List.exists_cons_of_ne_nil hA
  subst hA0
  rw [List.cons_append]
  have hc0 : isDigitChar c0 = true := hAd c0 (by simp)
  have hminus : (c0 == '-') = false := by
    rw [beq_eq_false_iff_ne]
    intro hcon
    rw [hcon] at hc0
    exact absurd hc0 (by decide)
  have hplus : (c0 == '+') = false := by
    rw [beq_eq_false_iff_ne]
    intro hcon
    rw [hcon] at hc0
    exact absurd hc0 (by decide)
  simp only [hminus, hplus, Bool.false_eq_true, if_false]
  rw [← List.cons_append]
  exact parseUnsignedDec_digits (c0 :: t) P hA hAd hP hPd

lemma stripStart_total (x : List Char) :
    stripStart (TOTAL_HEADER ++ x) = TOTAL_HEADER ++ x := by
  show stripStart ('T' :: (("OTAL: ").data ++ x)) = _
  unfold stripStart
  rw [List.dropWhile_cons]
  have hT : isPySpace 'T' = false := rfl
  rw [hT]
  simp only [Bool.false_eq_true, if_false]
  rfl

lemma pyStrip_total_line (D : List Char) (hne : D ≠ [])
    (hD : ∀ c ∈ D, isPySpace c = false) :
    pyStrip (TOTAL_HEADER ++ D) = TOTAL_HEADER ++ D := by
  unfold pyStrip
  rw [stripStart_total]
  exact stripEnd_append_of_last TOTAL_HEADER D hne hD

lemma totalSep_isPrefixOf_header (x : List Char) :
    TOTAL_SEP.isPrefixOf (TOTAL_HEADER ++ x) = true := rfl

lemma div_mod_decimal (N : Nat) :
    ((N / 10 ^ 10 : ℕ) : ℚ) + ((N % 10 ^ 10 : ℕ) : ℚ) / 10 ^ 10
      = (N : ℚ) / 10 ^ 10 := by
  have hne : ((10 : ℚ) ^ 10) ≠ 0 := by positivity
  have h := Nat.div_add_mod N (10 ^ 10)
  have h' : N / 10 ^ 10 * 10 ^ 10 + N % 10 ^ 10 = N := by
    rw [Nat.mul_comm] at h
    exact h
  rw [eq_div_iff hne, add_mul, div_mul_cancel₀ _ hne]
  exact_mod_cast h'

lemma digitsCore_padZeros (l : List Char) :
    digitsCore (padZeros 10 l) = digitsCore l :=
  digitsCore_replicate_zero _ l

/-- Reading back a header written as `f"TOTAL: {q:.10f}"` yields the
10-decimal rounding of `q`. -/
lemma headerTotal_fmt (q : ℚ) (h : 0 ≤ q) :
    headerTotal (TOTAL_HEADER ++ fmt10 q) = round10 q := by
  have hm : 0 ≤ round10Int q := round10Int_nonneg q h
  have hmod : (round10Int q).natAbs % 10 ^ 10 < 10 ^ 10 :=
    Nat.mod_lt _ (by norm_num)
  have hAne : natToDigits ((round10Int q).natAbs / 10 ^ 10) ≠ [] :=
    natToDigits_ne_nil _
  have hAd : ∀ c ∈ natToDigits ((round10Int q).natAbs / 10 ^ 10),
      isDigitChar c = true := natToDigits_digits _
  have hPd : ∀ c ∈ padZeros 10 (natToDigits ((round10Int q).natAbs % 10 ^ 10)),
      isDigitChar c = true := padZeros_digits _ (natToDigits_digits _)
  have hPlen :
      (padZeros 10 (natToDigits ((round10Int q).natAbs % 10 ^ 10))).length
        = 10 := padZeros_length _ (natToDigits_length_le_ten _ hmod)
  have hPne :
      padZeros 10 (natToDigits ((round10Int q).natAbs % 10 ^ 10)) ≠ [] := by
    intro hcon
    rw [hcon] at hPlen
    simp at hPlen
  have hDd : ∀ c ∈ natToDigits ((round10Int q).natAbs / 10 ^ 10)
      ++ '.' :: padZeros 10 (natToDigits ((round10Int q).natAbs % 10 ^ 10)),
      isPySpace c = false := by
    intro c hc
    rcases List.mem_append.1 hc with h1 | h1
    · exact not_space_of_digit _ (hAd _ h1)
    · rcases List.mem_cons.1 h1 with h1 | h1
      · subst h1; decide
      · exact not_space_of_digit _ (hPd _ h1)
  have hDne : natToDigits ((round10Int q).natAbs / 10 ^ 10)
      ++ '.' :: padZeros 10 (natToDigits ((round10Int q).natAbs % 10 ^ 10))
      ≠ [] := by
    intro hcon
    exact hAne (List.append_eq_nil.1 hcon).1
  have hTm : 'T' ∉ natToDigits ((round10Int q).natAbs / 10 ^ 10)
      ++ '.' :: padZeros 10 (natToDigits ((round10Int q).natAbs % 10 ^ 10)) := by
    intro hc
    rcases List.mem_append.1 hc with h1 | h1
    · exact ne_T_of_digit _ (hAd _ h1) rfl
    · rcases List.mem_cons.1 h1 with h1 | h1
      · exact absurd h1 (by decide)
      · exact ne_T_of_digit _ (hPd _ h1) rfl
  unfold headerTotal
  rw [fmt10_shape q h, pyStrip_total_line _ hDne hDd, pySplit_total_header _ hTm]
  rw [show ([[], ' ' :: (natToDigits ((round10Int q).natAbs / 10 ^ 10)
      ++ '.' :: padZeros 10 (natToDigits ((round10Int q).natAbs % 10 ^ 10)))] :
      List (List Char)).get? 1
      = some (' ' :: (natToDigits ((round10Int q).natAbs / 10 ^ 10)
        ++ '.' :: padZeros 10 (natToDigits ((round10Int q).natAbs % 10 ^ 10))))
    from rfl]
  rw [Option.some_bind]
  rw [parseDecimal?_space_digits _ _ hAne hAd hPne hPd]
  rw [Option.getD_some]
  rw [digitsCore_natToDigits, digitsCore_padZeros, digitsCore_natToDigits,
    hPlen, div_mod_decimal]
  unfold round10
  congr 1
  rw [Int.cast_natAbs, abs_of_nonneg hm]

lemma round10_int_div (k : ℤ) :
    round10 ((k : ℚ) / 10 ^ 10) = (k : ℚ) / 10 ^ 10 := by
  unfold round10 round10Int
  have hne : ((10 : ℚ) ^ 10) ≠ 0 := by positivity
  rw [div_mul_cancel₀ _ hne, Int.floor_int_add]
  norm_num

/-! ## Helper lemmas about the main loop -/

/-- The value of `last_timestamp` after a cycle is the clock pushed this cycle if the push
was confirmed, and the previous value otherwise. -/
lemma cycleStep_last_eq (last : Option (List Char)) (gas : Nat)
    (inp : CycleIn) :
    (cycleStep last gas inp).last
      = mostRecent last (cycleStep last gas inp).pushed.toList := by
  obtain ⟨fl, tok, outs⟩ := inp
  cases fl with
  | none => simp [cycleStep, mostRecent]
  | some lines =>
    cases h2 : extractClock lines with
    | none => simp [cycleStep, h2, mostRecent]
    | some cur =>
      by_cases hl : last = some cur
      · simp [cycleStep, h2, hl, mostRecent]
      · by_cases ht : tok
        · by_cases hs : (push_to_contract gas outs).success
          · simp [cycleStep, h2, hl, ht, hs, mostRecent]
          · simp [cycleStep, h2, hl, ht, hs, mostRecent]
        · simp [cycleStep, h2, hl, ht, mostRecent]

/-- The fold `mostRecent` distributes over appended event lists. -/
lemma mostRecent_append (last : Option (List Char)) (a b : List (List Char)) :
    mostRecent last (a ++ b) = mostRecent (mostRecent last a) b := by
  simp [mostRecent, List.foldl_append]

/-- Across any finite run, `last_timestamp` equals the clock of the most
recent confirmed publish, or the initial value when none happened. -/
lemma runLoop_mostRecent (inps : List CycleIn) :
    ∀ last gas, (runLoop last gas inps).1.1
      = mostRecent last (runLoop last gas inps).2 := by
  induction inps with
  | nil => intro last gas; simp [runLoop, mostRecent]
  | cons inp rest ih =>
    intro last gas
    simp only [runLoop]
    rw [mostRecent_append, ← cycleStep_last_eq]
    exact ih _ _

/-! ## Claim theorems -/

/-- Claim C2 (counterexample): the claim says the gas price never exceeds
`GAS_PRICE_MAX`, but starting from the base price, six consecutive timeouts
drive it to 3,100,000 wei, strictly above the configured maximum of
3,000,000 wei. -/
theorem gas_price_exceeds_max_counterexample :
    (push_to_contract GAS_PRICE_BASE (List.replicate 6 Outcome.timeout)).gas = 3100000
    ∧ GAS_PRICE_MAX < 3100000 := by decide

/-- Claim C2 (amended): across consecutive timeouts within one unresolved
update the price is non-decreasing; it increases by exactly one step while
strictly below `max`; once at or above `max` it holds; from the base it never
exceeds `max + 100000` wei (it overshoots `max` by a fraction of one step and then
holds at 3,100,000); and it equals the base immediately after any confirmed
success. -/
theorem gas_price_escalation_amended :
    (∀ g, g ≤ escalate g)
    ∧ (∀ g, g < GAS_PRICE_MAX → escalate g = g + GAS_PRICE_STEP)
    ∧ (∀ g, GAS_PRICE_MAX ≤ g → escalate g = g)
    ∧ (∀ n, (push_to_contract GAS_PRICE_BASE (List.replicate n Outcome.timeout)).gas
        = min (GAS_PRICE_BASE + GAS_PRICE_STEP * n) (GAS_PRICE_MAX + 100000))
    ∧ (∀ gas used rest,
        (push_to_contract gas (Outcome.accepted used :: rest)).gas = GAS_PRICE_BASE) := by
  refine ⟨fun g => ?_, fun g h => ?_, fun g h => ?_, fun n => ?_,
    fun gas used rest => rfl⟩
  · simp only [escalate]; split <;> omega
  · simp only [escalate]; rw [if_pos h]
  · simp only [escalate]; rw [if_neg (by omega)]
  · have h := push_timeouts_gas n 0
    have e1 : min (GAS_PRICE_BASE + GAS_PRICE_STEP * 0) 3100000 = GAS_PRICE_BASE := by
      decide
    have e2 : GAS_PRICE_MAX + 100000 = 3100000 := by decide
    rw [e1, Nat.zero_add] at h
    rw [e2, h]

/-- Witness for the amended C2 theorem at a concrete price below the max. -/
theorem gas_price_escalation_amended_witness :
    escalate 1300000 = 1300000 + GAS_PRICE_STEP :=
  gas_price_escalation_amended.2.1 1300000 (by decide)

/-- Claim C3: if the last confirmed publish had clock `c` and the cycle
observes a well-formed board file whose extracted clock is again `c`, the
cycle is a no-op: the submitter is not invoked and no state changes. -/
theorem idempotency_gate_no_submit (c : List Char) (gas : Nat) (inp : CycleIn)
    (lines : List (List Char)) (h1 : inp.fileLines = some lines)
    (h2 : extractClock lines = some c) :
    (cycleStep (some c) gas inp).invoked = false
    ∧ cycleStep (some c) gas inp = ⟨some c, gas, false, none⟩ := by
  obtain ⟨fl, tok, outs⟩ := inp
  simp only [CycleIn.fileLines] at h1
  subst h1
  simp [cycleStep, h2]

/-- Witness for C3 at a concrete repeated timestamp. -/
theorem idempotency_gate_no_submit_witness :
    (cycleStep (some ("t1".data)) 1300000
        ⟨some [("Timestamp: t1").data], true, []⟩).invoked = false
    ∧ cycleStep (some ("t1".data)) 1300000
        ⟨some [("Timestamp: t1").data], true, []⟩
      = ⟨some ("t1".data), 1300000, false, none⟩ :=
  idempotency_gate_no_submit ("t1".data) 1300000
    ⟨some [("Timestamp: t1").data], true, []⟩ [("Timestamp: t1").data]
    rfl (by decide)

/-- Claim C4: `last_timestamp` is set to the observed clock exactly when the
submitter confirms success, is left unchanged otherwise, and across any run
started with no published clock it always equals the clock of the most
recent confirmed publish (or stays unset when none happened). -/
theorem last_timestamp_tracks_success :
    (∀ last gas inp c, (cycleStep last gas inp).pushed = some c →
        (cycleStep last gas inp).invoked = true
        ∧ (cycleStep last gas inp).last = some c
        ∧ inp.fileLines.bind extractClock = some c
        ∧ (push_to_contract gas inp.outcomes).success = true)
    ∧ (∀ last gas inp, (cycleStep last gas inp).pushed = none →
        (cycleStep last gas inp).last = last)
    ∧ (∀ inps, (runLoop none GAS_PRICE_BASE inps).1.1
        = mostRecent none (runLoop none GAS_PRICE_BASE inps).2) := by
  refine ⟨?_, ?_, fun inps => runLoop_mostRecent inps none GAS_PRICE_BASE⟩
  · intro last gas inp c hp
    obtain ⟨fl, tok, outs⟩ := inp
    cases fl with
    | none => simp [cycleStep] at hp
    | some lines =>
      cases h2 : extractClock lines with
      | none => simp [cycleStep, h2] at hp
      | some cur =>
        by_cases hl : last = some cur
        · simp [cycleStep, h2, hl] at hp
        · by_cases ht : tok
          · by_cases hs : (push_to_contract gas outs).success
            · simp only [cycleStep, h2, hl, ht, hs, if_true, if_false,
                if_neg hl] at hp ⊢
              simp at hp
              subst hp
              simp [hs, h2]
            · simp [cycleStep, h2, hl, ht, hs] at hp
          · simp [cycleStep, h2, hl, ht] at hp
  · intro last gas inp hp
    obtain ⟨fl, tok, outs⟩ := inp
    cases fl with
    | none => simp [cycleStep]
    | some lines =>
      cases h2 : extractClock lines with
      | none => simp [cycleStep, h2]
      | some cur =>
        by_cases hl : last = some cur
        · simp [cycleStep, h2, hl]
        · by_cases ht : tok
          · by_cases hs : (push_to_contract gas outs).success
            · simp [cycleStep, h2, hl, ht, hs] at hp
            · simp [cycleStep, h2, hl, ht, hs]
          · simp [cycleStep, h2, hl, ht]

/-- Witness for C4: a cycle with a missing board file publishes nothing and
leaves `last_timestamp` unchanged. -/
theorem last_timestamp_tracks_success_witness :
    (cycleStep none 1300000 ⟨none, true, []⟩).last = none :=
  last_timestamp_tracks_success.2.1 none 1300000 ⟨none, true, []⟩ rfl

/-- Claim C5: endpoints are tried in the given order; a not-reachable
endpoint is skipped; the first confirmed acceptance short-circuits (the
result does not depend on the endpoints after it) and yields success; and
the call returns failure exactly when no endpoint accepted. -/
theorem endpoint_fallback_order :
    (∀ gas rest, push_to_contract gas (Outcome.unreachable :: rest)
        = push_to_contract gas rest)
    ∧ (∀ gas pre used post post', (∀ o ∈ pre, o.isAccepted = false) →
        push_to_contract gas (pre ++ Outcome.accepted used :: post)
          = push_to_contract gas (pre ++ Outcome.accepted used :: post')
        ∧ (push_to_contract gas (pre ++ Outcome.accepted used :: post)).success
            = true)
    ∧ (∀ gas outs, (push_to_contract gas outs).success
        = outs.any (fun o => o.isAccepted)) := by
  refine ⟨fun gas rest => rfl, fun gas pre used post post' h => ?_,
    fun gas outs => ?_⟩
  · rw [push_reaches_accepted gas used pre post h,
      push_reaches_accepted gas used pre post' h]
    exact ⟨rfl, rfl⟩
  · induction outs generalizing gas with
    | nil => simp [push_to_contract]
    | cons o rest ih =>
      cases o <;> simp [push_to_contract, Outcome.isAccepted, ih]

/-- Witness for C5: endpoint A unreachable, B accepts, C is never reached. -/
theorem endpoint_fallback_order_witness :
    push_to_contract GAS_PRICE_BASE
        ([Outcome.unreachable] ++ Outcome.accepted 1000 :: [Outcome.rejected])
      = push_to_contract GAS_PRICE_BASE
          ([Outcome.unreachable] ++ Outcome.accepted 1000 :: [])
    ∧ (push_to_contract GAS_PRICE_BASE
        ([Outcome.unreachable] ++ Outcome.accepted 1000 :: [Outcome.rejected])).success
      = true :=
  endpoint_fallback_order.2.1 GAS_PRICE_BASE [Outcome.unreachable] 1000
    [Outcome.rejected] [] (by decide)

/-- Claim C6 (counterexample): the claim says an unreachable endpoint or a
non-timeout transport error escalates the gas price; in the code both leave
the price untouched (`escalate` would have changed it). -/
theorem escalation_only_on_timeout_counterexample :
    (push_to_contract GAS_PRICE_BASE [Outcome.unreachable]).gas = GAS_PRICE_BASE
    ∧ (push_to_contract GAS_PRICE_BASE [Outcome.error]).gas = GAS_PRICE_BASE
    ∧ escalate GAS_PRICE_BASE ≠ GAS_PRICE_BASE := by decide

/-- Claim C6 (amended): for every non-accepting endpoint attempt the loop
continues with the next endpoint, and the gas price is escalated if and only
if the attempt ended in a timeout; confirmed rejection, unreachable
endpoints and non-timeout transport errors leave the price unchanged. -/
theorem escalation_only_on_timeout (gas : Nat) (o : Outcome)
    (rest : List Outcome) (h : o.isAccepted = false) :
    push_to_contract gas (o :: rest)
      = push_to_contract (if o = Outcome.timeout then escalate gas else gas)
          rest := by
  cases o <;> simp_all [push_to_contract, Outcome.isAccepted]

/-- Witness for the amended C6 theorem at a confirmed rejection. -/
theorem escalation_only_on_timeout_witness :
    push_to_contract GAS_PRICE_BASE [Outcome.rejected]
      = push_to_contract
          (if Outcome.rejected = Outcome.timeout then escalate GAS_PRICE_BASE
            else GAS_PRICE_BASE) [] :=
  escalation_only_on_timeout GAS_PRICE_BASE Outcome.rejected [] (by decide)

/-- Claim C9: on the first confirmed success the fee reported to the fee
ledger is exactly `gasUsed × gasPrice / 10¹⁸` where `gasPrice` is the
(possibly escalated) price used for that very transaction; Python's float
arithmetic is modelled as exact rational arithmetic. -/
theorem fee_computation_exact (gas used : Nat) (pre post : List Outcome)
    (h : ∀ o ∈ pre, o.isAccepted = false) :
    (push_to_contract gas (pre ++ Outcome.accepted used :: post)).fees
      = [(used : ℚ) * ((push_to_contract gas pre).gas : ℚ) / 10 ^ 18] := by
  rw [push_reaches_accepted gas used pre post h]

/-- Witness for C9: two timeouts escalate the price twice, then the accepted
write is charged at the escalated price. -/
theorem fee_computation_exact_witness :
    (push_to_contract 1300000
        ([Outcome.timeout, Outcome.timeout] ++ Outcome.accepted 1000 :: [])).fees
      = [(1000 : ℚ)
          * ((push_to_contract 1300000 [Outcome.timeout, Outcome.timeout]).gas : ℚ)
          / 10 ^ 18] :=
  fee_computation_exact 1300000 1000 [Outcome.timeout, Outcome.timeout] []
    (by decide)

/-- Claim C10: a board file is accepted exactly when its last line starts
with the literal `"Timestamp:"` (no space required); the clock token is the
last line with every occurrence of `"Timestamp: "` deleted and surrounding
whitespace stripped — so `"Timestamp:t1"` is accepted and yields the token
`"Timestamp:t1"`, and interior occurrences of the marker are removed. -/
theorem timestamp_extraction :
    (∀ lines ll, lines.getLast? = some ll →
        (extractClock lines).isSome = TS_TAG.isPrefixOf ll)
    ∧ extractClock [("Timestamp:t1").data] = some (("Timestamp:t1").data)
    ∧ extractClock [("Timestamp: aTimestamp: b").data] = some (("ab").data) := by
  refine ⟨fun lines ll h => ?_, by decide, by decide⟩
  unfold extractClock
  rw [h]
  by_cases hp : TS_TAG.isPrefixOf ll
  · simp [hp]
  · simp [hp]

/-- Witness for C10 on a one-line board file. -/
theorem timestamp_extraction_witness :
    (extractClock [("Timestamp:t1").data]).isSome
      = TS_TAG.isPrefixOf (("Timestamp:t1").data) :=
  timestamp_extraction.1 [("Timestamp:t1").data] (("Timestamp:t1").data)
    (by decide)

/-- Claim C8 (counterexample): `str.replace` substitutes every occurrence,
not at most one — a template repeating `<!--BOARD_ID-->` twice has both
occurrences replaced — and the three replacements are applied in a fixed
order, so the result depends on that order when a substituted value contains
another marker: with the board data `"<!--BOARD_ID-->"`, the code's
data-id-time order yields `"2"`, while an id-data-time order keeps the
marker. -/
theorem generate_html_counterexample :
    (occursIn BOARD_ID_MARK (BOARD_ID_MARK ++ BOARD_ID_MARK) = true
      ∧ generate_html (BOARD_ID_MARK ++ BOARD_ID_MARK) ("x".data) 2 ("y".data)
          = ("22").data
      ∧ occursIn BOARD_ID_MARK (("22").data) = false)
    ∧ (generate_html BOARD_DATA_MARK BOARD_ID_MARK 2 ("y".data) = ("2").data
      ∧ pyReplace
          (pyReplace (pyReplace BOARD_DATA_MARK BOARD_ID_MARK (natToDigits 2))
            BOARD_DATA_MARK BOARD_ID_MARK)
          LAST_UPDATE_MARK ("y".data) = BOARD_ID_MARK
      ∧ (("2").data : List Char) ≠ BOARD_ID_MARK) := by decide

/-- Claim C8 (amended): the render is literal text replacement applied
sequentially in the fixed order data, id, time; every occurrence of a marker
is substituted (a doubled data marker yields the value twice), and a
template containing no marker is returned unchanged. -/
theorem generate_html_amended (t v ts : List Char) (i : Nat)
    (h1 : occursIn BOARD_ID_MARK (v ++ v) = false)
    (h2 : occursIn LAST_UPDATE_MARK (v ++ v) = false)
    (h3 : occursIn BOARD_DATA_MARK t = false)
    (h4 : occursIn BOARD_ID_MARK t = false)
    (h5 : occursIn LAST_UPDATE_MARK t = false) :
    generate_html (BOARD_DATA_MARK ++ BOARD_DATA_MARK) v i ts = v ++ v
    ∧ generate_html t v i ts = t := by
  constructor
  · have hd : pyReplace (BOARD_DATA_MARK ++ BOARD_DATA_MARK) BOARD_DATA_MARK v
        = v ++ (v ++ []) := rfl
    unfold generate_html
    rw [hd, List.append_nil, pyReplace_not_occurs _ _ _ h1,
      pyReplace_not_occurs _ _ _ h2]
  · unfold generate_html
    rw [pyReplace_not_occurs _ _ _ h3, pyReplace_not_occurs _ _ _ h4,
      pyReplace_not_occurs _ _ _ h5]

/-- Evaluation of `headerTotal` on a concrete well-formed header line. -/
lemma headerTotal_concrete (l0 A P : List Char) (v : ℚ)
    (h1 : pyStrip l0 = l0)
    (h2 : pySplit l0 TOTAL_SEP = [[], ' ' :: (A ++ '.' :: P)])
    (hA : A ≠ []) (hAd : ∀ c ∈ A, isDigitChar c = true)
    (hP : P ≠ []) (hPd : ∀ c ∈ P, isDigitChar c = true)
    (hv : (digitsCore A : ℚ) + (digitsCore P : ℚ) / 10 ^ P.length = v) :
    headerTotal l0 = v := by
  unfold headerTotal
  rw [h1, h2]
  simp only [List.get?, Option.some_bind]
  rw [parseDecimal?_space_digits A P hA hAd hP hPd, Option.getD_some, hv]

/-- Claim C1 (counterexample): the header is written with `:.10f`, so a fee
below the 10-decimal resolution is lost — recording `10⁻¹¹` on a ledger with
total `0` writes back a header that reads as `0`, not `0 + 10⁻¹¹`. -/
theorem fee_round_trip_counterexample :
    readFeeFile [("TOTAL: 0.0000000000").data] = (0, [])
    ∧ (readFeeFile (update_fee_file [("TOTAL: 0.0000000000").data]
        ((1 : ℚ) / 10 ^ 11))).1 ≠ 0 + (1 : ℚ) / 10 ^ 11 := by
  have hT : headerTotal (("TOTAL: 0.0000000000").data) = 0 :=
    headerTotal_concrete _ ['0'] (("0000000000").data) 0 (by decide) (by decide)
      (by decide) (by decide) (by decide) (by decide)
      (by rw [(by decide : digitsCore ['0'] = 0),
            (by decide : digitsCore (("0000000000").data) = 0)]
          norm_num)
  have hread : readFeeFile [("TOTAL: 0.0000000000").data] = (0, []) := by
    simp only [readFeeFile]
    rw [if_pos (by decide), hT]
  refine ⟨hread, ?_⟩
  have hupd : update_fee_file [("TOTAL: 0.0000000000").data] ((1 : ℚ) / 10 ^ 11)
      = (TOTAL_HEADER ++ fmt10 (0 + (1 : ℚ) / 10 ^ 11))
          :: ([] ++ [fmt10 ((1 : ℚ) / 10 ^ 11)]) := by
    unfold update_fee_file
    rw [hread]
  rw [hupd]
  simp only [readFeeFile]
  rw [if_pos (totalSep_isPrefixOf_header _)]
  show headerTotal (TOTAL_HEADER ++ fmt10 (0 + (1 : ℚ) / 10 ^ 11))
      ≠ 0 + (1 : ℚ) / 10 ^ 11
  rw [headerTotal_fmt _ (by norm_num)]
  unfold round10 round10Int
  norm_num

/-- Claim C1 (amended): starting from a ledger whose first line is a
`TOTAL:` header parsing as `T` with entry lines `[e1..en]`, one `record(f)`
rewrites the file so that reading it back yields total `round10 (T + f)` —
the 10-decimal rounding of `T + f`, equal to `T + f` whenever the latter is
a multiple of `10⁻¹⁰` — and the entry lines `[e1..en, fmt10 f]` with all
prior entries preserved verbatim and the new entry physically last. -/
theorem fee_round_trip_amended (l0 : List Char) (es : List (List Char))
    (T f : ℚ) (h0 : TOTAL_SEP.isPrefixOf l0 = true) (hT : headerTotal l0 = T)
    (hTf : 0 ≤ T + f) :
    readFeeFile (update_fee_file (l0 :: es) f)
      = (round10 (T + f), es ++ [fmt10 f])
    ∧ (∀ k : ℤ, round10 ((k : ℚ) / 10 ^ 10) = (k : ℚ) / 10 ^ 10) := by
  refine ⟨?_, round10_int_div⟩
  have hread : readFeeFile (l0 :: es) = (T, es) := by
    simp only [readFeeFile]
    rw [if_pos h0, hT]
  have hupd : update_fee_file (l0 :: es) f
      = (TOTAL_HEADER ++ fmt10 (T + f)) :: (es ++ [fmt10 f]) := by
    unfold update_fee_file
    rw [hread]
  rw [hupd]
  simp only [readFeeFile]
  rw [if_pos (totalSep_isPrefixOf_header _), headerTotal_fmt _ hTf]

/-- Witness for the amended C1 theorem on a concrete ledger. -/
theorem fee_round_trip_amended_witness :
    readFeeFile (update_fee_file [("TOTAL: 2.5000000000").data, ("0.1").data]
        ((1 : ℚ) / 2))
      = (round10 ((5 : ℚ) / 2 + 1 / 2), [("0.1").data] ++ [fmt10 ((1 : ℚ) / 2)]) :=
  (fee_round_trip_amended (("TOTAL: 2.5000000000").data) [("0.1").data]
    ((5 : ℚ) / 2) ((1 : ℚ) / 2) (by decide)
    (headerTotal_concrete _ ['2'] (("5000000000").data) ((5 : ℚ) / 2)
      (by decide) (by decide) (by decide) (by decide) (by decide) (by decide)
      (by rw [(by decide : digitsCore ['2'] = 2),
            (by decide : digitsCore (("5000000000").data) = 5000000000),
            (by decide : (("5000000000").data).length = 10)]
          norm_num))
    (by norm_num)).1

/-- Claim C7: a missing or empty backing store is treated as total `0` with
no entries (recording `f` then yields a one-entry ledger whose header reads
back as the rounded `f`), and on a store whose first line is not
`TOTAL:`-prefixed, `record(5.0)` succeeds, yields total `5` on read-back,
and retains no prior lines as history. -/
theorem fee_file_missing_or_malformed :
    (∀ f : ℚ, 0 ≤ f → readFeeFile [] = (0, [])
      ∧ readFeeFile (update_fee_file [] f) = (round10 f, [fmt10 f]))
    ∧ (∀ l0 es, TOTAL_SEP.isPrefixOf l0 = false →
        readFeeFile (update_fee_file (l0 :: es) 5) = (5, [fmt10 5])) := by
  constructor
  · intro f hf
    refine ⟨rfl, ?_⟩
    have hupd : update_fee_file [] f
        = (TOTAL_HEADER ++ fmt10 (0 + f)) :: ([] ++ [fmt10 f]) := rfl
    rw [hupd]
    simp only [readFeeFile]
    rw [if_pos (totalSep_isPrefixOf_header _),
      headerTotal_fmt _ (by simpa using hf), zero_add]
    simp
  · intro l0 es h
    have hread : readFeeFile (l0 :: es) = (0, []) := by
      simp only [readFeeFile]
      rw [if_neg (by simp [h])]
    have hupd : update_fee_file (l0 :: es) 5
        = (TOTAL_HEADER ++ fmt10 (0 + 5)) :: ([] ++ [fmt10 5]) := by
      unfold update_fee_file
      rw [hread]
    rw [hupd]
    simp only [readFeeFile]
    rw [if_pos (totalSep_isPrefixOf_header _), headerTotal_fmt _ (by norm_num)]
    have h5 : round10 ((0 : ℚ) + 5) = 5 := by
      have hk := round10_int_div (5 * 10 ^ 10)
      norm_num at hk
      simpa using hk
    rw [h5]
    simp

/-- Witness for C7 on the empty store and a malformed header. -/
theorem fee_file_missing_or_malformed_witness :
    readFeeFile (update_fee_file [] 1) = (round10 1, [fmt10 1])
    ∧ readFeeFile (update_fee_file [("junk").data] 5) = (5, [fmt10 5]) :=
  ⟨(fee_file_missing_or_malformed.1 1 (by norm_num)).2,
    fee_file_missing_or_malformed.2 (("junk").data) [] (by decide)⟩

/-- Witness for the amended C8 theorem with marker-free values. -/
theorem generate_html_amended_witness :
    generate_html (BOARD_DATA_MARK ++ BOARD_DATA_MARK) ("x".data) 2 ("y".data)
        = ("x".data) ++ ("x".data)
    ∧ generate_html ("z".data) ("x".data) 2 ("y".data) = ("z".data) :=
  generate_html_amended ("z".data) ("x".data) ("y".data) 2 (by decide)
    (by decide) (by decide) (by decide) (by decide)

end OKPixels
